import Mathlib

/-!
Verification development for the lock-free statistics core (`stats/stats.go`)
of the finch benchmarking tool.

The Go code is shallowly embedded:
* `float64` arithmetic is idealised as real-number arithmetic (`ℝ`); the
  rational constants of the source are kept exactly.  The source constant
  `logFactor = 0.046051701859881`, documented in the source as `ln(factor)`,
  is modelled by `Real.log factor`.
* machine integers (`int64`, `uint64`, `uint16`) are modelled by `ℤ`/`ℕ`
  (no operation in the modelled code can overflow at the sizes involved).
* the Go map `Errors map[uint16]uint64` is modelled by an association list
  together with a lookup-with-default-zero function, which mirrors Go map
  reads; insertion order stands in for the (irrelevant) map iteration order.
* the `atomic.Pointer` of `Trx` is modelled, in single-threaded executions,
  by the boolean `onA` that the source itself keeps in sync with the pointer:
  `sp.Load()` is the slot selected by `onA`.
-/

set_option maxRecDepth 8000

/-- Number of event types (`nEventTypes = 4` in the source). -/
def nEventTypes : ℕ := 4

/-- `READ byte = iota` -/
def READ : Fin 4 := 0
/-- `WRITE` -/
def WRITE : Fin 4 := 1
/-- `COMMIT` -/
def COMMIT : Fin 4 := 2
/-- `TOTAL` -/
def TOTAL : Fin 4 := 3

/-- `const n_buckets = 450` -/
def n_buckets : ℕ := 450

/-- `const base = 10.0` (microseconds). -/
noncomputable def base : ℝ := 10.0

/-- `const factor = 1.0471285480508996` (4.7% bucket size increments). -/
noncomputable def factor : ℝ := 1.0471285480508996

/-- The same constant as an exact rational, used where the source feeds
`factor` into `math.Pow` inside `Percentiles` (executable model). -/
def factorQ : ℚ := 1.0471285480508996

/-- `const logFactor = 0.046051701859881 // ln(factor)`.  The stored float is
the source's decimal printing of `ln(factor)`; in this real-valued model the
constant is taken to be `Real.log factor` itself, as the source comment
states. -/
noncomputable def logFactor : ℝ := Real.log factor

/-- `bucket := math.Log(float64(d)/base) / logFactor` — the raw (real-valued)
bucket index computed at the top of `Stats.Record`. -/
noncomputable def rawIndex (d : ℝ) : ℝ := Real.log (d / base) / logFactor

/-- The bucket number computed by `Stats.Record`:
`n := uint(bucket) + 1; if bucket < 0 { n = 0 }; if n > n_buckets-1 { n = n_buckets-1 }`. -/
noncomputable def bucketIndex (d : ℝ) : ℕ :=
  if rawIndex d < 0 then 0 else min (⌊rawIndex d⌋₊ + 1) (n_buckets - 1)

/-- The bucket index as an index into the 450-entry bucket array. -/
noncomputable def bucketIndexFin (d : ℝ) : Fin 450 :=
  ⟨bucketIndex d, by unfold bucketIndex n_buckets; split <;> omega⟩

/-- The `Stats` struct: per event type, 450 response-time buckets, `Min`,
`Max` (microseconds, `int64`) and event count `N` (`uint64`), plus the shared
`Errors map[uint16]uint64` tally (association list, see file header). -/
structure Stats where
  Buckets : Fin 4 → Fin 450 → ℕ
  Min : Fin 4 → ℤ
  Max : Fin 4 → ℤ
  N : Fin 4 → ℕ
  Errors : List (ℕ × ℕ)

/-- `NewStats`: zeroed buckets, Min, Max, N and an empty error map. -/
def NewStats : Stats :=
  { Buckets := fun _ _ => 0
    Min := fun _ => 0
    Max := fun _ => 0
    N := fun _ => 0
    Errors := [] }

/-- Go map read `m[k]` (zero value for a missing key). -/
def errLookup (m : List (ℕ × ℕ)) (k : ℕ) : ℕ :=
  ((m.find? (fun kv => kv.1 == k)).map Prod.snd).getD 0

/-- Go map write `m[k] = v` (update the key in place, or add it). -/
def errSet (m : List (ℕ × ℕ)) (k v : ℕ) : List (ℕ × ℕ) :=
  if m.any (fun kv => kv.1 == k) then
    m.map (fun kv => if kv.1 == k then (k, v) else kv)
  else
    m ++ [(k, v)]

/-- The block of `Stats.Record` that records one event of type `et` in
bucket `n` (lines `s.Buckets[eventType][n] += 1` through
`s.N[eventType]++`); the source duplicates this block verbatim for the
event's own type and for `TOTAL`. -/
def recordAt (s : Stats) (et : Fin 4) (n : Fin 450) (d : ℤ) : Stats :=
  { Buckets := Function.update s.Buckets et
      (Function.update (s.Buckets et) n (s.Buckets et n + 1))
    Min := Function.update s.Min et
      (if d < s.Min et ∨ s.N et = 0 then d else s.Min et)
    Max := Function.update s.Max et
      (if s.Max et < d then d else s.Max et)
    N := Function.update s.N et (s.N et + 1)
    Errors := s.Errors }

/-- `Stats.Record`: classify the duration into a bucket, record it for the
event's own type, and (non-`TOTAL` events only) mirror it into `TOTAL`. -/
noncomputable def Stats.Record (s : Stats) (eventType : Fin 4) (d : ℤ) : Stats :=
  let n := bucketIndexFin (d : ℝ)
  let s1 := recordAt s eventType n d
  if eventType ≠ TOTAL then recordAt s1 TOTAL n d else s1

/-- `Stats.Reset`: zero every bucket, Min, Max and N, and zero (but keep)
every existing error-code entry. -/
def Stats.Reset (s : Stats) : Stats :=
  { Buckets := fun _ _ => 0
    Min := fun _ => 0
    Max := fun _ => 0
    N := fun _ => 0
    Errors := s.Errors.map (fun kv => (kv.1, 0)) }

/-- `Stats.Copy`: copy every bucket, Min, Max and N from `c`, and write each
of `c`'s error entries over `s`'s (`for k, v := range c.Errors { s.Errors[k] = v }`;
entries of `s` for keys absent from `c` are left as they are). -/
def Stats.Copy (s c : Stats) : Stats :=
  { Buckets := c.Buckets
    Min := c.Min
    Max := c.Max
    N := c.N
    Errors := c.Errors.foldl (fun m kv => errSet m kv.1 kv.2) s.Errors }

/-- `Stats.Combine`: add `c`'s buckets, keep the smaller Min
(`if c.Min[i] < s.Min[i] || s.N[i] == 0`), the larger Max, add `N`, and add
`c`'s error tallies (`s.Errors[k] += v`, creating missing keys). -/
def Stats.Combine (s c : Stats) : Stats :=
  { Buckets := fun et b => s.Buckets et b + c.Buckets et b
    Min := fun et => if c.Min et < s.Min et ∨ s.N et = 0 then c.Min et else s.Min et
    Max := fun et => if s.Max et < c.Max et then c.Max et else s.Max et
    N := fun et => s.N et + c.N et
    Errors := c.Errors.foldl (fun m kv => errSet m kv.1 (errLookup m kv.1 + kv.2)) s.Errors }

/-- The bucket geometry stated by the spec: bucket 0 covers `[0, base)`,
bucket `i ≥ 1` covers `[base·factor^(i-1), base·factor^i)`. -/
noncomputable def bucketRange (i : ℕ) (d : ℝ) : Prop :=
  if i = 0 then 0 ≤ d ∧ d < base
  else base * factor ^ (i - 1) ≤ d ∧ d < base * factor ^ i

/-- The buckets of one event type as a total function on `ℕ`
(`s.Buckets[eventType]`, out-of-range reads never happen in the loop). -/
def Stats.bfun (s : Stats) (et : Fin 4) : ℕ → ℕ :=
  fun i => if h : i < 450 then s.Buckets et ⟨i, h⟩ else 0

/-- The integer part extracted by `math.Modf` (truncation toward zero). -/
def ipart (q : ℚ) : ℤ := if q < 0 then ⌈q⌉ else ⌊q⌋

/-- `uint64(base * math.Pow(factor, float64(i)))` — the (truncated) upper
boundary of bucket `i` as computed in `Stats.Percentiles`. -/
def hiVal (i : ℕ) : ℕ := ⌊(10 : ℚ) * factorQ ^ i⌋₊

/-- The value estimate assigned to `q[j]` once `f >= p[j]` holds in bucket
`i`: the bucket's truncated upper boundary, replaced by the midpoint with the
previous bucket's boundary when the integer parts of `p[j]` and `f` differ
and `i > 0`, and by `base·factor^0` when `i == 0`. -/
def estValue (i : ℕ) (pj f : ℚ) : ℕ :=
  let hi := hiVal i
  if ipart pj ≠ ipart f ∧ 0 < i then (hi + hiVal (i - 1)) / 2
  else if i = 0 then hiVal 0
  else hi

/-- The bucket-scanning loop of `Stats.Percentiles` (`for i := range
s.Buckets[eventType]`), with the loop counter `i`, running count `n`, target
index `j` and result array `q` made explicit; `fuel` counts the remaining
iterations (the call site passes 450, so `fuel = 450 - i`). -/
def percGo (bkts : ℕ → ℕ) (N : ℕ) (p : List ℚ) :
    ℕ → ℕ → ℕ → ℕ → List ℕ → List ℕ
  | 0, _, _, _, q => q
  | fuel + 1, i, n, j, q =>
    let n' := n + bkts i
    let f : ℚ := (n' : ℚ) / (N : ℚ) * 100
    if p.getD j 0 ≤ f then
      let q' := q.set j (estValue i (p.getD j 0) f)
      if j = q.length - 1 then q'
      else percGo bkts N p fuel (i + 1) n' (j + 1) q'
    else percGo bkts N p fuel (i + 1) n' j q

/-- `Stats.Percentiles`: empty request short-circuits; otherwise scan the 450
buckets accumulating counts, filling `q` (initially all zeros). -/
def Stats.Percentiles (s : Stats) (eventType : Fin 4) (p : List ℚ) : List ℕ :=
  if p.length = 0 then []
  else percGo (s.bfun eventType) (s.N eventType) p 450 0 0 0 (List.replicate p.length 0)

/-- Modelled from the spec's words (§4.2), for comparison with the source
loop: walk buckets `0..449` in order maintaining running count `n` and
cumulative fraction `f = n/N·100`; once `f ≥` the current target, emit the
estimate and advance to the next target; stop when all targets are
satisfied; targets still unsatisfied when the scan ends are left at zero. -/
def percSpecWalk (bkts : ℕ → ℕ) (N : ℕ) : ℕ → ℕ → ℕ → List ℚ → List ℕ
  | _, _, _, [] => []
  | 0, _, _, ps => List.replicate ps.length 0
  | fuel + 1, i, n, pj :: rest =>
    let n' := n + bkts i
    let f : ℚ := (n' : ℚ) / (N : ℚ) * 100
    if pj ≤ f then estValue i pj f :: percSpecWalk bkts N fuel (i + 1) n' rest
    else percSpecWalk bkts N fuel (i + 1) n' (pj :: rest)

/-- Modelled from the spec's words (§4.2): the percentile extraction as the
spec describes it — an in-order walk consuming the ordered targets. -/
def percentilesSpec (s : Stats) (eventType : Fin 4) (p : List ℚ) : List ℕ :=
  if p = [] then [] else percSpecWalk (s.bfun eventType) (s.N eventType) 450 0 0 p

/-- The `Trx` double buffer: two pre-allocated `Stats` slots `a` and `b`.
The atomic pointer `sp` always points at the slot selected by `onA`
(the source stores into `sp` and flips `onA` together), so in the
single-threaded executions modelled here it is represented by `onA` alone. -/
structure Trx where
  Name : String
  a : Stats
  b : Stats
  onA : Bool

/-- `NewTrx`: two fresh slots, `a` active. -/
def NewTrx (name : String) : Trx :=
  { Name := name, a := NewStats, b := NewStats, onA := true }

/-- The slot `t.sp.Load()` returns: the currently active slot. -/
def Trx.active (t : Trx) : Stats := if t.onA then t.a else t.b

/-- `Trx.Record`: record into the active slot. -/
noncomputable def Trx.Record (t : Trx) (eventType : Fin 4) (d : ℤ) : Trx :=
  if t.onA then { t with a := t.a.Record eventType d }
  else { t with b := t.b.Record eventType d }

/-- `Trx.Error`: `t.sp.Load().Errors[n] += 1` on the active slot. -/
def Trx.Error (t : Trx) (n : ℕ) : Trx :=
  if t.onA then
    { t with a := { t.a with Errors := errSet t.a.Errors n (errLookup t.a.Errors n + 1) } }
  else
    { t with b := { t.b with Errors := errSet t.b.Errors n (errLookup t.b.Errors n + 1) } }

/-- `Trx.Swap`: reset the idle slot, publish it as active (atomic store),
flip the bookkeeping, and return the previously active slot. -/
def Trx.Swap (t : Trx) : Stats × Trx :=
  if t.onA then (t.a, { t with b := t.b.Reset, onA := false })
  else (t.b, { t with a := t.a.Reset, onA := true })

/-- Record a list of `(eventType, duration)` events through a `Trx`. -/
noncomputable def recordAll (t : Trx) (l : List (Fin 4 × ℤ)) : Trx :=
  l.foldl (fun t e => t.Record e.1 e.2) t

/-- Record a list of `(eventType, duration)` events directly into a `Stats`. -/
noncomputable def runStats (s : Stats) (l : List (Fin 4 × ℤ)) : Stats :=
  l.foldl (fun s e => s.Record e.1 e.2) s

/-- One producer-side operation on a `Stats`: a `Record` call or a `Reset`. -/
inductive SOp where
  | record (et : Fin 4) (d : ℤ)
  | reset

/-- Apply one operation. -/
noncomputable def applyOp (s : Stats) : SOp → Stats
  | .record et d => s.Record et d
  | .reset => s.Reset

/-- The snapshot reached from a fresh `Stats` by a sequence of operations. -/
noncomputable def runOps (l : List SOp) : Stats := l.foldl applyOp NewStats

/-- One step of the recorded-durations bookkeeping: a record of type `et'`
lands in slot `et'` and (also for non-`TOTAL` types) in `TOTAL`; a reset
clears everything. -/
def sinceResetStep (g : Fin 4 → List ℤ) : SOp → Fin 4 → List ℤ
  | .record et' d => fun et => if et = et' ∨ et = TOTAL then g et ++ [d] else g et
  | .reset => fun _ => []

/-- The durations recorded for each event type since the last `Reset`
(mirrored records count for `TOTAL` as well). -/
def sinceReset (l : List SOp) (et : Fin 4) : List ℤ :=
  (l.foldl sinceResetStep (fun _ => [])) et

/-- All durations ever recorded for an event type, across `Reset`s. -/
def recordedEver (l : List SOp) (et : Fin 4) : List ℤ :=
  l.foldl
    (fun acc op =>
      match op with
      | .record et' d => if et = et' ∨ et = TOTAL then acc ++ [d] else acc
      | .reset => acc)
    []

/-- The `TOTAL`-mirroring invariant: `TOTAL`'s count and per-bucket counts
are the sums over the three non-`TOTAL` event types. -/
def mirrorInv (s : Stats) : Prop :=
  s.N TOTAL = s.N READ + s.N WRITE + s.N COMMIT ∧
  ∀ b, s.Buckets TOTAL b =
    s.Buckets READ b + s.Buckets WRITE b + s.Buckets COMMIT b

/-- The per-type histogram invariant, relative to the durations `g et`
recorded for type `et` since the last reset: bucket counts sum to `N`,
`N` counts the recorded durations, `N = 0` forces `Min = Max = 0`, and
every recorded duration lies in `[Min, Max]`. -/
def c8Inv (s : Stats) (g : Fin 4 → List ℤ) : Prop :=
  ∀ et : Fin 4,
    (∑ b : Fin 450, s.Buckets et b) = s.N et ∧
    s.N et = (g et).length ∧
    (s.N et = 0 → s.Min et = 0 ∧ s.Max et = 0) ∧
    ∀ d ∈ g et, s.Min et ≤ d ∧ d ≤ s.Max et

/-- Observable equality of snapshots: all numeric fields equal, error
tallies extensionally equal (a missing key reads as zero, as in Go). -/
def statsEqv (s c : Stats) : Prop :=
  s.Buckets = c.Buckets ∧ s.Min = c.Min ∧ s.Max = c.Max ∧ s.N = c.N ∧
    ∀ k, errLookup s.Errors k = errLookup c.Errors k

/-- ASCII whitespace (the fragment of `unicode.IsSpace` relevant to
`strings.TrimSpace` on the inputs modelled here). -/
def isSpaceChar (c : Char) : Bool :=
  c == ' ' || c == '\t' || c == '\n' || c == '\x0b' || c == '\x0c' || c == '\r'

/-- `strings.TrimSpace`. -/
def trimSpace (s : List Char) : List Char :=
  ((s.dropWhile isSpaceChar).reverse.dropWhile isSpaceChar).reverse

/-- `strings.TrimLeft(s, "Pp")`: drop every leading `P`/`p`. -/
def trimLeftPp (s : List Char) : List Char :=
  s.dropWhile (fun c => c == 'P' || c == 'p')

/-- `strings.Split(s, ",")`. -/
def splitOnComma : List Char → List (List Char)
  | [] => [[]]
  | c :: rest =>
    if c = ',' then [] :: splitOnComma rest
    else
      match splitOnComma rest with
      | [] => [[c]]
      | t :: ts => (c :: t) :: ts

/-- Numeric value of a digit character. -/
def digitVal (c : Char) : ℕ := c.toNat - '0'.toNat

/-- Value of a digit string as a natural number. -/
def digitsVal (ds : List Char) : ℕ := ds.foldl (fun a c => 10 * a + digitVal c) 0

/-- The unsigned decimal part of a float token: `digits [ '.' digits ]` with
at least one digit in total. -/
def parseDecBody (s : List Char) : Option ℚ :=
  let intPart := s.takeWhile Char.isDigit
  let rest := s.dropWhile Char.isDigit
  match rest with
  | [] => if intPart = [] then none else some (digitsVal intPart : ℚ)
  | '.' :: frac =>
    if frac.all Char.isDigit ∧ (intPart ≠ [] ∨ frac ≠ []) then
      some ((digitsVal intPart : ℚ) + (digitsVal frac : ℚ) / 10 ^ frac.length)
    else none
  | _ => none

/-- Models `strconv.ParseFloat` restricted to plain decimal forms: an
optional sign followed by `digits [ '.' digits ]`.  The exponent, hex,
underscore, `Inf` and `NaN` forms accepted by `strconv.ParseFloat` are
outside this model; theorems quantifying over tokens therefore restrict the
token alphabet to the modelled fragment. -/
def parseGoFloat (s : List Char) : Option ℚ :=
  match s with
  | '+' :: rest => (parseDecBody rest).map id
  | '-' :: rest => (parseDecBody rest).map (fun q => -q)
  | _ => parseDecBody s

/-- The two error classes of `ParsePercentiles`. -/
inductive PercErr where
  | invalidPercentile
  | outOfRange
deriving DecidableEq

/-- Modelled from the spec: the fixed default percentile list returned for
blank input.  The defining declarations (`DefaultPercentileNames`,
`DefaultPercentiles`) are referenced by `ParsePercentiles` but are not among
the provided sources; the spec fixes only that the list is a constant, so a
representative constant is used here. -/
def DefaultPercentiles : List ℚ := [95, 99, 999 / 10]

/-- Modelled from the spec: display names matching `DefaultPercentiles`. -/
def DefaultPercentileNames : List (List Char) :=
  [['P', '9', '5'], ['P', '9', '9'], ['P', '9', '9', '.', '9']]

/-- The token loop of `ParsePercentiles`: trim each raw token, strip leading
`P`/`p`, parse it, range-check it, and accumulate `"P"+pStr` and the value. -/
def parseTokens : List (List Char) → List (List Char) → List ℚ →
    Except PercErr (List (List Char) × List ℚ)
  | [], s, p => .ok (s, p)
  | raw :: rest, s, p =>
    let pStr := trimLeftPp (trimSpace raw)
    match parseGoFloat pStr with
    | none => .error .invalidPercentile
    | some f =>
      if f < 0 ∨ 100 < f then .error .outOfRange
      else parseTokens rest (s ++ ['P' :: pStr]) (p ++ [f])

/-- `ParsePercentiles`: blank input gives the default list; otherwise split
on commas and parse each token. -/
def ParsePercentiles (pCSV : List Char) : Except PercErr (List (List Char) × List ℚ) :=
  if trimSpace pCSV = [] then .ok (DefaultPercentileNames, DefaultPercentiles)
  else if splitOnComma pCSV = [] then .ok ([], [])
  else parseTokens (splitOnComma pCSV) [] []

/-- The characters a plain decimal token may contain — the fragment of
`strconv.ParseFloat`'s input language covered by `parseGoFloat` (plus the
trimmed `P`/`p` and whitespace); general theorems about `ParsePercentiles`
are restricted to this alphabet. -/
def goFloatChar (c : Char) : Bool :=
  c.isDigit || c == '.' || c == '+' || c == '-' || c == 'P' || c == 'p' || isSpaceChar c

/-- Concrete snapshot used as `Combine` receiver: five events of 7–9 μs
(bucket 0), `Min = 7`, `Max = 9`. -/
def combineCexS : Stats :=
  { Buckets := fun et b => if et = READ ∧ b = 0 then 5 else 0
    Min := fun et => if et = READ then 7 else 0
    Max := fun et => if et = READ then 9 else 0
    N := fun et => if et = READ then 5 else 0
    Errors := [] }

/-- Concrete snapshot holding one error-code entry (`1006 ↦ 5`). -/
def copyCexS : Stats := { NewStats with Errors := [(1006, 5)] }

/-- Concrete snapshot: one READ event in bucket 30 and one in bucket 31. -/
def percCexS : Stats :=
  { Buckets := fun et b => if et = READ ∧ (b = 30 ∨ b = 31) then 1 else 0
    Min := fun et => if et = READ then 40 else 0
    Max := fun et => if et = READ then 43 else 0
    N := fun et => if et = READ then 2 else 0
    Errors := [] }

/-- Concrete snapshot: a single READ event in bucket 5. -/
def percCexS2 : Stats :=
  { Buckets := fun et b => if et = READ ∧ b = 5 then 1 else 0
    Min := fun et => if et = READ then 12 else 0
    Max := fun et => if et = READ then 12 else 0
    N := fun et => if et = READ then 1 else 0
    Errors := [] }

/-- Concrete snapshot: one READ event in bucket 0 and one in bucket 1. -/
def percWitS : Stats :=
  { Buckets := fun et b => if et = READ ∧ (b = 0 ∨ b = 1) then 1 else 0
    Min := fun et => if et = READ then 5 else 0
    Max := fun et => if et = READ then 10 else 0
    N := fun et => if et = READ then 2 else 0
    Errors := [] }

/-! ### Basic facts about the constants and `Record`'s bucket computation -/

theorem factor_eq : factor = (10471285480508996 : ℝ) / 10 ^ 16 := by
  norm_num [factor]

theorem factor_gt_one : (1 : ℝ) < factor := by norm_num [factor]

theorem factor_pos : (0 : ℝ) < factor := lt_trans one_pos factor_gt_one

theorem logFactor_pos : 0 < logFactor := Real.log_pos factor_gt_one

theorem base_pos : (0 : ℝ) < base := by norm_num [base]

theorem rawIndex_neg_iff {d : ℝ} (hd : 0 < d) : rawIndex d < 0 ↔ d < base := by
  unfold rawIndex
  rw [div_neg_iff]
  constructor
  · rintro (⟨_, h'⟩ | ⟨h, _⟩)
    · exact absurd logFactor_pos (not_lt.mpr (le_of_lt h'))
    · exact (div_lt_one base_pos).mp ((Real.log_neg_iff (div_pos hd base_pos)).mp h)
  · intro h
    exact Or.inr ⟨(Real.log_neg_iff (div_pos hd base_pos)).mpr
      ((div_lt_one base_pos).mpr h), logFactor_pos⟩

theorem le_rawIndex_iff {d : ℝ} (hd : 0 < d) (k : ℕ) :
    (k : ℝ) ≤ rawIndex d ↔ base * factor ^ k ≤ d := by
  unfold rawIndex
  rw [le_div_iff₀ logFactor_pos]
  unfold logFactor
  rw [← Real.log_pow,
    Real.log_le_log_iff (pow_pos factor_pos k) (div_pos hd base_pos),
    le_div_iff₀ base_pos]
  constructor <;> intro h <;> nlinarith

theorem rawIndex_lt_iff {d : ℝ} (hd : 0 < d) (k : ℕ) :
    rawIndex d < (k : ℝ) ↔ d < base * factor ^ k := by
  simp only [← not_le]
  exact not_congr (le_rawIndex_iff hd k)

theorem bucketIndex_le449 (d : ℝ) : bucketIndex d ≤ 449 := by
  unfold bucketIndex n_buckets
  split
  · exact Nat.zero_le _
  · exact min_le_right _ _

theorem pow448_le : factor ^ 448 ≤ 954992586 := by
  rw [factor_eq, div_pow, div_le_iff₀ (by positivity), ← pow_mul]
  norm_num

theorem pow449_le : factor ^ 449 ≤ 10 ^ 9 := by
  rw [factor_eq, div_pow, div_le_iff₀ (by positivity), ← pow_mul]
  norm_num

theorem bucketIndex_of_big {d : ℝ} (hd : 0 < d)
    (h : base * factor ^ 448 ≤ d) : bucketIndex d = 449 := by
  have h448 : (448 : ℝ) ≤ rawIndex d := (le_rawIndex_iff hd 448).mpr h
  have hnn : (0 : ℝ) ≤ rawIndex d := le_trans (by norm_num) h448
  have hfl : 448 ≤ ⌊rawIndex d⌋₊ := Nat.le_floor h448
  unfold bucketIndex n_buckets
  rw [if_neg (not_lt.mpr hnn)]
  omega

theorem bucketIndex_containment {d : ℝ} (hd : 0 < d)
    (hub : d < base * factor ^ 449) : bucketRange (bucketIndex d) d := by
  by_cases hneg : rawIndex d < 0
  · have h10 : d < base := (rawIndex_neg_iff hd).mp hneg
    unfold bucketIndex bucketRange
    rw [if_pos hneg, if_pos rfl]
    exact ⟨le_of_lt hd, h10⟩
  · have hnn : (0 : ℝ) ≤ rawIndex d := not_lt.mp hneg
    have hlt449 : rawIndex d < (449 : ℝ) := (rawIndex_lt_iff hd 449).mpr hub
    have hfl : ⌊rawIndex d⌋₊ < 449 :=
      (Nat.floor_lt hnn).mpr (by exact_mod_cast hlt449)
    have hidx : bucketIndex d = ⌊rawIndex d⌋₊ + 1 := by
      unfold bucketIndex n_buckets
      rw [if_neg hneg]
      omega
    rw [hidx]
    unfold bucketRange
    rw [if_neg (Nat.succ_ne_zero _)]
    constructor
    · have : ((⌊rawIndex d⌋₊ : ℕ) : ℝ) ≤ rawIndex d := Nat.floor_le hnn
      simpa using (le_rawIndex_iff hd ⌊rawIndex d⌋₊).mp this
    · have : rawIndex d < ((⌊rawIndex d⌋₊ + 1 : ℕ) : ℝ) := by
        push_cast
        exact Nat.lt_floor_add_one _
      exact (rawIndex_lt_iff hd (⌊rawIndex d⌋₊ + 1)).mp this

theorem bucketIndex_ten : bucketIndex 10 = 1 := by
  have h : rawIndex 10 = 0 := by
    unfold rawIndex
    rw [show (10 : ℝ) / base = 1 by norm_num [base], Real.log_one, zero_div]
  unfold bucketIndex n_buckets
  rw [h]
  norm_num

theorem bucketIndex_9999 : bucketIndex 9.999 = 0 := by
  have h : rawIndex 9.999 < 0 :=
    (rawIndex_neg_iff (by norm_num)).mpr (by norm_num [base])
  unfold bucketIndex
  rw [if_pos h]

theorem bucketIndex_top : bucketIndex 9549925860 = 449 := by
  refine bucketIndex_of_big (by norm_num) ?_
  have := pow448_le
  rw [show base = 10 by norm_num [base]]
  nlinarith

/-! ### Effect of `Record` on the individual fields -/

theorem Record_Buckets_self (s : Stats) (et : Fin 4) (d : ℤ) :
    (s.Record et d).Buckets et (bucketIndexFin (d : ℝ)) =
      s.Buckets et (bucketIndexFin (d : ℝ)) + 1 := by
  by_cases h : et = TOTAL
  · subst h; simp [Stats.Record, recordAt, Function.update_apply]
  · have h' : TOTAL ≠ et := Ne.symm h
    simp [Stats.Record, recordAt, Function.update_apply, h, h']

theorem Record_Buckets_total (s : Stats) (et : Fin 4) (d : ℤ) :
    (s.Record et d).Buckets TOTAL (bucketIndexFin (d : ℝ)) =
      s.Buckets TOTAL (bucketIndexFin (d : ℝ)) + 1 := by
  by_cases h : et = TOTAL
  · subst h; simp [Stats.Record, recordAt, Function.update_apply]
  · have h' : TOTAL ≠ et := Ne.symm h
    simp [Stats.Record, recordAt, Function.update_apply, h, h']

theorem Record_Buckets_other_b (s : Stats) (et et' : Fin 4) (d : ℤ)
    (b : Fin 450) (hb : b ≠ bucketIndexFin (d : ℝ)) :
    (s.Record et d).Buckets et' b = s.Buckets et' b := by
  by_cases h : et = TOTAL <;> by_cases h1 : et' = TOTAL <;> by_cases h2 : et' = et <;>
    simp_all [Stats.Record, recordAt, Function.update_apply]

theorem Record_Buckets_other_et (s : Stats) (et et' : Fin 4) (d : ℤ)
    (h1 : et' ≠ et) (h2 : et' ≠ TOTAL) :
    (s.Record et d).Buckets et' = s.Buckets et' := by
  by_cases h : et = TOTAL <;>
    simp_all [Stats.Record, recordAt, Function.update_noteq]

theorem Record_Min_self (s : Stats) (et : Fin 4) (d : ℤ) :
    (s.Record et d).Min et =
      if d < s.Min et ∨ s.N et = 0 then d else s.Min et := by
  by_cases h : et = TOTAL
  · subst h; simp [Stats.Record, recordAt, Function.update_apply]
  · have h' : TOTAL ≠ et := Ne.symm h
    simp [Stats.Record, recordAt, Function.update_apply, h, h']

theorem Record_Min_total (s : Stats) (et : Fin 4) (d : ℤ) :
    (s.Record et d).Min TOTAL =
      if d < s.Min TOTAL ∨ s.N TOTAL = 0 then d else s.Min TOTAL := by
  by_cases h : et = TOTAL
  · subst h; simp [Stats.Record, recordAt, Function.update_apply]
  · have h' : TOTAL ≠ et := Ne.symm h
    simp [Stats.Record, recordAt, Function.update_apply, h, h']

theorem Record_Min_other (s : Stats) (et et' : Fin 4) (d : ℤ)
    (h1 : et' ≠ et) (h2 : et' ≠ TOTAL) :
    (s.Record et d).Min et' = s.Min et' := by
  by_cases h : et = TOTAL <;>
    simp_all [Stats.Record, recordAt, Function.update_noteq]

theorem Record_Max_self (s : Stats) (et : Fin 4) (d : ℤ) :
    (s.Record et d).Max et =
      if s.Max et < d then d else s.Max et := by
  by_cases h : et = TOTAL
  · subst h; simp [Stats.Record, recordAt, Function.update_apply]
  · have h' : TOTAL ≠ et := Ne.symm h
    simp [Stats.Record, recordAt, Function.update_apply, h, h']

theorem Record_Max_total (s : Stats) (et : Fin 4) (d : ℤ) :
    (s.Record et d).Max TOTAL =
      if s.Max TOTAL < d then d else s.Max TOTAL := by
  by_cases h : et = TOTAL
  · subst h; simp [Stats.Record, recordAt, Function.update_apply]
  · have h' : TOTAL ≠ et := Ne.symm h
    simp [Stats.Record, recordAt, Function.update_apply, h, h']

theorem Record_Max_other (s : Stats) (et et' : Fin 4) (d : ℤ)
    (h1 : et' ≠ et) (h2 : et' ≠ TOTAL) :
    (s.Record et d).Max et' = s.Max et' := by
  by_cases h : et = TOTAL <;>
    simp_all [Stats.Record, recordAt, Function.update_noteq]

theorem Record_N_self (s : Stats) (et : Fin 4) (d : ℤ) :
    (s.Record et d).N et = s.N et + 1 := by
  by_cases h : et = TOTAL
  · subst h; simp [Stats.Record, recordAt, Function.update_apply]
  · have h' : TOTAL ≠ et := Ne.symm h
    simp [Stats.Record, recordAt, Function.update_apply, h, h']

theorem Record_N_total (s : Stats) (et : Fin 4) (d : ℤ) :
    (s.Record et d).N TOTAL = s.N TOTAL + 1 := by
  by_cases h : et = TOTAL
  · subst h; simp [Stats.Record, recordAt, Function.update_apply]
  · have h' : TOTAL ≠ et := Ne.symm h
    simp [Stats.Record, recordAt, Function.update_apply, h, h']

theorem Record_N_other (s : Stats) (et et' : Fin 4) (d : ℤ)
    (h1 : et' ≠ et) (h2 : et' ≠ TOTAL) :
    (s.Record et d).N et' = s.N et' := by
  by_cases h : et = TOTAL <;>
    simp_all [Stats.Record, recordAt, Function.update_noteq]

theorem Record_Errors (s : Stats) (et : Fin 4) (d : ℤ) :
    (s.Record et d).Errors = s.Errors := by
  by_cases h : et = TOTAL <;> simp [Stats.Record, h, recordAt]

theorem one_le_factor_pow (k : ℕ) : (1 : ℝ) ≤ factor ^ k := by
  have h := pow_le_pow_left (by norm_num : (0 : ℝ) ≤ 1)
    (le_of_lt factor_gt_one) k
  simpa using h

/-- C1 (counterexample): the claim asserts that for every duration `d > 0`
the computed bucket index's range contains `d`; at `d = 10^10` (10^10 μs,
about 2.8 h) the index is clamped to 449 but `d` lies above bucket 449's
upper boundary `base·factor^449 ≈ 9 549 925 860.2`, so the range does not
contain `d`. -/
theorem C1_counterexample :
    bucketIndex ((10 : ℝ) ^ 10) = 449 ∧ ¬ bucketRange 449 ((10 : ℝ) ^ 10) := by
  constructor
  · refine bucketIndex_of_big (by positivity) ?_
    have := pow448_le
    rw [show base = 10 by norm_num [base]]
    nlinarith
  · unfold bucketRange
    rw [if_neg (by norm_num)]
    rintro ⟨-, h⟩
    have := pow449_le
    rw [show base = 10 by norm_num [base]] at h
    nlinarith

/-- C1 (amended): for every duration `d > 0`, `Record`'s bucket index is
`raw = ln(d/base)/ln(factor)`, mapped to `0` when `raw < 0` and to
`floor(raw)+1` clamped to 449 otherwise (this is the definition of
`bucketIndex`); the index always lies in `[0, 449]`, and **whenever `d` lies
below bucket 449's upper boundary `base·factor^449`** the indexed bucket's
range contains `d`; `d = 10` maps to bucket 1, `d = 9.999` to bucket 0, and
`d = 9 549 925 860` to bucket 449; `Record` increments exactly that bucket
of the event's type.  (Durations at or above `base·factor^449` are clamped
into bucket 449, whose range does not contain them — see the
counterexample.) -/
theorem C1_bucket_index :
    (∀ d : ℝ, 0 < d → bucketIndex d ≤ 449 ∧
      (d < base * factor ^ 449 → bucketRange (bucketIndex d) d)) ∧
    bucketIndex 10 = 1 ∧ bucketIndex 9.999 = 0 ∧
    bucketIndex 9549925860 = 449 ∧
    (∀ (s : Stats) (et : Fin 4) (d : ℤ),
      (s.Record et d).Buckets et (bucketIndexFin (d : ℝ)) =
        s.Buckets et (bucketIndexFin (d : ℝ)) + 1) :=
  ⟨fun d hd => ⟨bucketIndex_le449 d, fun hub => bucketIndex_containment hd hub⟩,
   bucketIndex_ten, bucketIndex_9999, bucketIndex_top, Record_Buckets_self⟩

/-- C1 witness: the amended theorem applied at the concrete duration 5. -/
theorem C1_witness :
    bucketIndex (5 : ℝ) ≤ 449 ∧ bucketRange (bucketIndex (5 : ℝ)) 5 := by
  have h5 : (0 : ℝ) < 5 := by norm_num
  have hub : (5 : ℝ) < base * factor ^ 449 := by
    have := one_le_factor_pow 449
    rw [show base = 10 by norm_num [base]]
    nlinarith
  exact ⟨(C1_bucket_index.1 5 h5).1, (C1_bucket_index.1 5 h5).2 hub⟩
theorem errLookup_nil (k : ℕ) : errLookup [] k = 0 := rfl

theorem errLookup_cons (kv : ℕ × ℕ) (m : List (ℕ × ℕ)) (k : ℕ) :
    errLookup (kv :: m) k = if kv.1 = k then kv.2 else errLookup m k := by
  by_cases h : kv.1 = k <;> simp [errLookup, List.find?_cons, h]

theorem mapset_lookup_same (m : List (ℕ × ℕ)) (k v : ℕ)
    (h : ∃ kv ∈ m, kv.1 = k) :
    errLookup (m.map (fun kv => if kv.1 == k then (k, v) else kv)) k = v := by
  induction m with
  | nil => simp at h
  | cons kv rest ih =>
    rw [List.map_cons]
    by_cases hk : kv.1 = k
    · rw [if_pos (by simpa using hk), errLookup_cons, if_pos rfl]
    · rw [if_neg (by simpa using hk), errLookup_cons, if_neg hk]
      apply ih
      rcases h with ⟨w, hw, hwk⟩
      rcases List.mem_cons.mp hw with h1 | h1
      · exact absurd (h1 ▸ hwk) hk
      · exact ⟨w, h1, hwk⟩

theorem mapset_lookup_other (m : List (ℕ × ℕ)) (k v k' : ℕ) (h : k' ≠ k) :
    errLookup (m.map (fun kv => if kv.1 == k then (k, v) else kv)) k' =
      errLookup m k' := by
  induction m with
  | nil => simp
  | cons kv rest ih =>
    rw [List.map_cons]
    by_cases hk : kv.1 = k
    · rw [if_pos (by simpa using hk), errLookup_cons,
        if_neg (show ¬(k, v).1 = k' from Ne.symm h), errLookup_cons,
        if_neg (hk ▸ Ne.symm h : ¬kv.1 = k'), ih]
    · rw [if_neg (by simpa using hk), errLookup_cons, errLookup_cons, ih]

theorem appendone_lookup_same (m : List (ℕ × ℕ)) (k v : ℕ)
    (h : ∀ kv ∈ m, kv.1 ≠ k) :
    errLookup (m ++ [(k, v)]) k = v := by
  induction m with
  | nil => simp [errLookup_cons]
  | cons kv rest ih =>
    have h1 : kv.1 ≠ k := h kv (by simp)
    rw [List.cons_append, errLookup_cons, if_neg h1]
    exact ih (fun x hx => h x (by simp [hx]))

theorem appendone_lookup_other (m : List (ℕ × ℕ)) (k v k' : ℕ) (h : k' ≠ k) :
    errLookup (m ++ [(k, v)]) k' = errLookup m k' := by
  induction m with
  | nil => simp [errLookup_cons, errLookup_nil, Ne.symm h]
  | cons kv rest ih =>
    rw [List.cons_append, errLookup_cons, errLookup_cons, ih]

theorem errLookup_errSet_same (m : List (ℕ × ℕ)) (k v : ℕ) :
    errLookup (errSet m k v) k = v := by
  unfold errSet
  split
  · rename_i h
    rcases List.any_eq_true.mp h with ⟨kv, hkv, hk⟩
    exact mapset_lookup_same m k v ⟨kv, hkv, by simpa using hk⟩
  · rename_i h
    refine appendone_lookup_same m k v ?_
    intro kv hkv hk
    exact h (List.any_eq_true.mpr ⟨kv, hkv, by simpa using hk⟩)

theorem errLookup_errSet_other (m : List (ℕ × ℕ)) (k v k' : ℕ) (h : k' ≠ k) :
    errLookup (errSet m k v) k' = errLookup m k' := by
  unfold errSet
  split
  · exact mapset_lookup_other m k v k' h
  · exact appendone_lookup_other m k v k' h

/-- C5 (code bug): `Copy` is documented ("Calling Reset before Copy is not
necessary because the copy overwrites all values") and specified to make the
receiver equal to the operand, but error-code entries of the receiver whose
keys are absent from the operand survive the copy: copying a fresh snapshot
over a receiver holding `Errors = {1006 ↦ 5}` leaves the stale entry, so the
receiver does not equal the operand. -/
theorem C5_copy_stale_errors :
    (copyCexS.Copy NewStats).Errors = [(1006, 5)] ∧
    errLookup (copyCexS.Copy NewStats).Errors 1006 = 5 ∧
    errLookup NewStats.Errors 1006 = 0 ∧
    ¬ statsEqv (copyCexS.Copy NewStats) NewStats := by
  refine ⟨rfl, rfl, rfl, fun h => absurd (h.2.2.2.2 1006) (by decide)⟩

/-- C10: `Record(eventType, d)` with a non-`TOTAL` event type modifies only
the `Buckets`/`Min`/`Max`/`N` entries of that event type and of `TOTAL`,
leaving the other two event types and the `Errors` map untouched;
`Record(TOTAL, d)` modifies only the `TOTAL` entries; `Trx.Error` increments
only the key `n` of the active snapshot's error tally, leaving every
`Buckets`/`Min`/`Max`/`N` entry of both slots, the other error keys, the
inactive slot's errors, and the bookkeeping bit unchanged. -/
theorem C10_frame :
    (∀ (s : Stats) (et et' : Fin 4) (d : ℤ), et' ≠ et → et' ≠ TOTAL →
      (s.Record et d).Buckets et' = s.Buckets et' ∧
      (s.Record et d).Min et' = s.Min et' ∧
      (s.Record et d).Max et' = s.Max et' ∧
      (s.Record et d).N et' = s.N et') ∧
    (∀ (s : Stats) (et : Fin 4) (d : ℤ), (s.Record et d).Errors = s.Errors) ∧
    (∀ (t : Trx) (n : ℕ),
      (t.Error n).a.Buckets = t.a.Buckets ∧ (t.Error n).a.Min = t.a.Min ∧
      (t.Error n).a.Max = t.a.Max ∧ (t.Error n).a.N = t.a.N ∧
      (t.Error n).b.Buckets = t.b.Buckets ∧ (t.Error n).b.Min = t.b.Min ∧
      (t.Error n).b.Max = t.b.Max ∧ (t.Error n).b.N = t.b.N ∧
      (t.Error n).onA = t.onA ∧
      errLookup ((t.Error n).active).Errors n = errLookup t.active.Errors n + 1 ∧
      (∀ k, k ≠ n → errLookup ((t.Error n).active).Errors k = errLookup t.active.Errors k) ∧
      (t.onA = true → (t.Error n).b.Errors = t.b.Errors) ∧
      (t.onA = false → (t.Error n).a.Errors = t.a.Errors)) := by
  refine ⟨fun s et et' d h1 h2 =>
    ⟨Record_Buckets_other_et s et et' d h1 h2, Record_Min_other s et et' d h1 h2,
     Record_Max_other s et et' d h1 h2, Record_N_other s et et' d h1 h2⟩,
    Record_Errors, fun t n => ?_⟩
  by_cases ha : t.onA = true
  · refine ⟨?_, ?_, ?_, ?_, ?_, ?_, ?_, ?_, ?_, ?_, ?_, ?_, ?_⟩ <;>
      simp [Trx.Error, Trx.active, ha, errLookup_errSet_same]
    · intro k hk
      exact errLookup_errSet_other _ _ _ _ hk
  · refine ⟨?_, ?_, ?_, ?_, ?_, ?_, ?_, ?_, ?_, ?_, ?_, ?_, ?_⟩ <;>
      simp [Trx.Error, Trx.active, ha, errLookup_errSet_same]
    · intro k hk
      exact errLookup_errSet_other _ _ _ _ hk

/-- C10 witness: the frame theorem applied at a concrete record call
(`Record(READ, 7)` on a fresh snapshot, inspecting the WRITE entries). -/
theorem C10_witness :
    (NewStats.Record READ 7).Buckets WRITE = NewStats.Buckets WRITE ∧
    (NewStats.Record READ 7).Min WRITE = NewStats.Min WRITE ∧
    (NewStats.Record READ 7).Max WRITE = NewStats.Max WRITE ∧
    (NewStats.Record READ 7).N WRITE = NewStats.N WRITE :=
  C10_frame.1 NewStats READ WRITE 7 (by decide) (by decide)

theorem fin4_cases (et : Fin 4) : et = READ ∨ et = WRITE ∨ et = COMMIT ∨ et = TOTAL := by
  fin_cases et <;> simp [READ, WRITE, COMMIT, TOTAL]

theorem Record_N_formula (s : Stats) (et et' : Fin 4) (d : ℤ) :
    (s.Record et d).N et' = s.N et' +
      ((if et' = et then 1 else 0) +
       (if et ≠ TOTAL ∧ et' = TOTAL then 1 else 0)) := by
  by_cases h1 : et' = et
  · subst h1
    rw [Record_N_self]
    by_cases hT : et' = TOTAL <;> simp [hT]
  · by_cases h2 : et' = TOTAL
    · subst h2
      have het : et ≠ TOTAL := fun hh => h1 hh.symm
      rw [Record_N_total]
      simp [h1, het]
    · rw [Record_N_other s et et' d h1 h2]
      simp [h1, h2]

theorem Record_Buckets_formula (s : Stats) (et et' : Fin 4) (d : ℤ) (b : Fin 450) :
    (s.Record et d).Buckets et' b = s.Buckets et' b +
      ((if et' = et ∧ b = bucketIndexFin (d : ℝ) then 1 else 0) +
       (if et ≠ TOTAL ∧ et' = TOTAL ∧ b = bucketIndexFin (d : ℝ) then 1 else 0)) := by
  by_cases hb : b = bucketIndexFin (d : ℝ)
  · subst hb
    by_cases h1 : et' = et
    · subst h1
      rw [Record_Buckets_self]
      by_cases hT : et' = TOTAL <;> simp [hT]
    · by_cases h2 : et' = TOTAL
      · subst h2
        have het : et ≠ TOTAL := fun hh => h1 hh.symm
        rw [Record_Buckets_total]
        simp [h1, het]
      · rw [congrFun (Record_Buckets_other_et s et et' d h1 h2) _]
        simp [h1, h2]
  · rw [Record_Buckets_other_b s et et' d b hb]
    simp [hb]

theorem mirrorInv_Record (s : Stats) (et : Fin 4) (d : ℤ) (het : et ≠ TOTAL)
    (h : mirrorInv s) : mirrorInv (s.Record et d) := by
  obtain ⟨hN, hB⟩ := h
  constructor
  · rw [Record_N_formula, Record_N_formula, Record_N_formula, Record_N_formula]
    rcases fin4_cases et with he | he | he | he <;> subst he <;>
      simp_all [READ, WRITE, COMMIT, TOTAL] <;> omega
  · intro b
    rw [Record_Buckets_formula, Record_Buckets_formula, Record_Buckets_formula,
      Record_Buckets_formula]
    have hBb := hB b
    rcases fin4_cases et with he | he | he | he <;> subst he <;>
      by_cases hb : b = bucketIndexFin (d : ℝ) <;>
      simp_all [READ, WRITE, COMMIT, TOTAL] <;> omega

theorem mirrorInv_runStats (l : List (Fin 4 × ℤ)) :
    ∀ s : Stats, (∀ e ∈ l, e.1 ≠ TOTAL) → mirrorInv s → mirrorInv (runStats s l) := by
  induction l with
  | nil => intro s _ h; exact h
  | cons e rest ih =>
    intro s hl h
    have h1 : e.1 ≠ TOTAL := hl e (by simp)
    have h2 : ∀ x ∈ rest, x.1 ≠ TOTAL := fun x hx => hl x (by simp [hx])
    exact ih (s.Record e.1 e.2) h2 (mirrorInv_Record s e.1 e.2 h1 h)

/-- C7: after any sequence of `Record` calls restricted to the non-`TOTAL`
event types on a fresh snapshot, `N[TOTAL]` equals the sum of `N` over
READ, WRITE and COMMIT, and each `TOTAL` bucket equals the sum of that
bucket over the three non-`TOTAL` types — `TOTAL` is populated exactly by
the mirroring inside `Record`. -/
theorem C7_total_mirroring (l : List (Fin 4 × ℤ)) (hl : ∀ e ∈ l, e.1 ≠ TOTAL) :
    (runStats NewStats l).N TOTAL =
      (runStats NewStats l).N READ + (runStats NewStats l).N WRITE +
        (runStats NewStats l).N COMMIT ∧
    ∀ b, (runStats NewStats l).Buckets TOTAL b =
      (runStats NewStats l).Buckets READ b + (runStats NewStats l).Buckets WRITE b +
        (runStats NewStats l).Buckets COMMIT b :=
  mirrorInv_runStats l NewStats hl ⟨rfl, fun _ => rfl⟩

/-- C7 witness: the invariant at the concrete record sequence
`[(READ, 5), (WRITE, 17)]`. -/
theorem C7_witness :
    (runStats NewStats [(READ, 5), (WRITE, 17)]).N TOTAL =
      (runStats NewStats [(READ, 5), (WRITE, 17)]).N READ +
        (runStats NewStats [(READ, 5), (WRITE, 17)]).N WRITE +
        (runStats NewStats [(READ, 5), (WRITE, 17)]).N COMMIT :=
  (C7_total_mirroring [(READ, 5), (WRITE, 17)] (by decide)).1

/-! ### The double-buffered recorder -/

theorem Reset_NewStats : NewStats.Reset = NewStats := rfl

theorem recordAll_onA_true (l : List (Fin 4 × ℤ)) :
    ∀ t : Trx, t.onA = true →
      recordAll t l = ⟨t.Name, runStats t.a l, t.b, true⟩ := by
  induction l with
  | nil =>
    intro t h
    cases t
    simp_all [recordAll, runStats]
  | cons e rest ih =>
    intro t h
    have hstep : t.Record e.1 e.2 = ⟨t.Name, t.a.Record e.1 e.2, t.b, true⟩ := by
      cases t
      simp_all [Trx.Record]
    show recordAll (t.Record e.1 e.2) rest = _
    rw [hstep, ih _ rfl]
    rfl

theorem recordAll_onA_false (l : List (Fin 4 × ℤ)) :
    ∀ t : Trx, t.onA = false →
      recordAll t l = ⟨t.Name, t.a, runStats t.b l, false⟩ := by
  induction l with
  | nil =>
    intro t h
    cases t
    simp_all [recordAll, runStats]
  | cons e rest ih =>
    intro t h
    have hstep : t.Record e.1 e.2 = ⟨t.Name, t.a, t.b.Record e.1 e.2, false⟩ := by
      cases t
      simp_all [Trx.Record]
    show recordAll (t.Record e.1 e.2) rest = _
    rw [hstep, ih _ rfl]
    rfl

theorem runStats_N_TOTAL (l : List (Fin 4 × ℤ)) (hl : ∀ e ∈ l, e.1 ≠ TOTAL) :
    ∀ s : Stats, (runStats s l).N TOTAL = s.N TOTAL + l.length := by
  induction l with
  | nil => intro s; simp [runStats]
  | cons e rest ih =>
    intro s
    have h2 : ∀ x ∈ rest, x.1 ≠ TOTAL := fun x hx => hl x (by simp [hx])
    show (runStats (s.Record e.1 e.2) rest).N TOTAL = _
    rw [ih h2, Record_N_total]
    simp
    omega

theorem runStats_Buckets_add (l : List (Fin 4 × ℤ)) :
    ∀ (s : Stats) (et : Fin 4) (b : Fin 450),
      (runStats s l).Buckets et b =
        s.Buckets et b + (runStats NewStats l).Buckets et b := by
  induction l with
  | nil => intro s et b; simp [runStats, NewStats]
  | cons e rest ih =>
    intro s et b
    show (runStats (s.Record e.1 e.2) rest).Buckets et b = _
    rw [ih (s.Record e.1 e.2) et b]
    have hR : (runStats NewStats (e :: rest)).Buckets et b =
        (NewStats.Record e.1 e.2).Buckets et b +
          (runStats NewStats rest).Buckets et b := by
      show (runStats (NewStats.Record e.1 e.2) rest).Buckets et b = _
      rw [ih (NewStats.Record e.1 e.2) et b]
    rw [hR, Record_Buckets_formula, Record_Buckets_formula]
    have h0 : NewStats.Buckets et b = 0 := rfl
    rw [h0]
    omega

theorem runStats_append (l1 l2 : List (Fin 4 × ℤ)) (s : Stats) :
    runStats s (l1 ++ l2) = runStats (runStats s l1) l2 := by
  unfold runStats
  exact List.foldl_append _ _ _ _

/-- C3: single-threaded swap handoff.  Record `l1` into a fresh `Trx`; the
first `Swap` returns the previously active slot holding exactly `l1`'s
events (`N[TOTAL] = |l1|`; it *is* `runStats NewStats l1`) while the newly
published slot is empty, and the returned frozen slot is kept un-reset in
the buffer (`.a` still equals the returned snapshot).  Record `l2` more; the
second `Swap` returns a snapshot holding exactly `l2`'s events, disjoint
from the first (it is `runStats NewStats l2`), the newly active slot is
empty again, and the two returned snapshots together account for exactly
`|l1| + |l2|` events with per-bucket counts summing to one combined run —
nothing lost or double-counted. -/
theorem C3_swap_handoff (nm : String) (l1 l2 : List (Fin 4 × ℤ))
    (h1 : ∀ e ∈ l1, e.1 ≠ TOTAL) (h2 : ∀ e ∈ l2, e.1 ≠ TOTAL) :
    ((recordAll (NewTrx nm) l1).Swap.1.N TOTAL = l1.length) ∧
    ((recordAll (NewTrx nm) l1).Swap.1 = runStats NewStats l1) ∧
    ((recordAll (NewTrx nm) l1).Swap.2.active.N TOTAL = 0) ∧
    ((recordAll (NewTrx nm) l1).Swap.2.a = (recordAll (NewTrx nm) l1).Swap.1) ∧
    ((recordAll ((recordAll (NewTrx nm) l1).Swap.2) l2).Swap.1.N TOTAL = l2.length) ∧
    ((recordAll ((recordAll (NewTrx nm) l1).Swap.2) l2).Swap.1 = runStats NewStats l2) ∧
    ((recordAll ((recordAll (NewTrx nm) l1).Swap.2) l2).Swap.2.active.N TOTAL = 0) ∧
    ((recordAll (NewTrx nm) l1).Swap.1.N TOTAL +
      (recordAll ((recordAll (NewTrx nm) l1).Swap.2) l2).Swap.1.N TOTAL =
        l1.length + l2.length) ∧
    (∀ (et : Fin 4) (b : Fin 450),
      (recordAll (NewTrx nm) l1).Swap.1.Buckets et b +
        (recordAll ((recordAll (NewTrx nm) l1).Swap.2) l2).Swap.1.Buckets et b =
          (runStats NewStats (l1 ++ l2)).Buckets et b) := by
  have hN1 : (runStats NewStats l1).N TOTAL = l1.length := by
    rw [runStats_N_TOTAL l1 h1 NewStats]
    simp [NewStats]
  have hN2 : (runStats NewStats l2).N TOTAL = l2.length := by
    rw [runStats_N_TOTAL l2 h2 NewStats]
    simp [NewStats]
  have e1 : recordAll (NewTrx nm) l1 = ⟨nm, runStats NewStats l1, NewStats, true⟩ :=
    recordAll_onA_true l1 (NewTrx nm) rfl
  have e2 : (recordAll (NewTrx nm) l1).Swap =
      (runStats NewStats l1, ⟨nm, runStats NewStats l1, NewStats, false⟩) := by
    rw [e1]
    simp [Trx.Swap, Reset_NewStats]
  have e3 : recordAll ((recordAll (NewTrx nm) l1).Swap.2) l2 =
      ⟨nm, runStats NewStats l1, runStats NewStats l2, false⟩ := by
    rw [e2]
    exact recordAll_onA_false l2 _ rfl
  have e4 : (recordAll ((recordAll (NewTrx nm) l1).Swap.2) l2).Swap =
      (runStats NewStats l2,
       ⟨nm, (runStats NewStats l1).Reset, runStats NewStats l2, true⟩) := by
    rw [e3]
    simp [Trx.Swap]
  refine ⟨?_, ?_, ?_, ?_, ?_, ?_, ?_, ?_, ?_⟩
  · rw [e2]; exact hN1
  · rw [e2]
  · rw [e2]; rfl
  · rw [e2]
  · rw [e4]; exact hN2
  · rw [e4]
  · rw [e4]; rfl
  · rw [e4, e2]; simp [hN1, hN2]
  · intro et b
    rw [e4, e2]
    show (runStats NewStats l1).Buckets et b + (runStats NewStats l2).Buckets et b = _
    rw [runStats_append, runStats_Buckets_add l2 (runStats NewStats l1) et b]

/-- C3 witness: the handoff theorem at two concrete event lists. -/
theorem C3_witness :
    ((recordAll (NewTrx "t") [(READ, 5), (WRITE, 17)]).Swap.1.N TOTAL = 2) ∧
    ((recordAll ((recordAll (NewTrx "t") [(READ, 5), (WRITE, 17)]).Swap.2)
        [(COMMIT, 40)]).Swap.1.N TOTAL = 1) := by
  have h := C3_swap_handoff "t" [(READ, 5), (WRITE, 17)] [(COMMIT, 40)]
    (by decide) (by decide)
  exact ⟨h.1, h.2.2.2.2.1⟩

/-! ### `Combine`, `Reset` and the error tally -/

theorem errLookup_eq_zero_of_not_mem (m : List (ℕ × ℕ)) (k : ℕ)
    (h : k ∉ m.map Prod.fst) : errLookup m k = 0 := by
  induction m with
  | nil => rfl
  | cons kv rest ih =>
    rw [errLookup_cons, if_neg (fun hk => h (by simp [hk.symm]))]
    exact ih (fun hk => h (by simp [hk]))

theorem errLookup_zeroed (m : List (ℕ × ℕ)) (k : ℕ) :
    errLookup (m.map (fun kv => (kv.1, 0))) k = 0 := by
  induction m with
  | nil => rfl
  | cons kv rest ih =>
    rw [List.map_cons, errLookup_cons]
    by_cases hk : kv.1 = k <;> simp [hk, ih]

theorem combineErr_lookup (ce : List (ℕ × ℕ)) :
    ∀ (m : List (ℕ × ℕ)) (k : ℕ), (ce.map Prod.fst).Nodup →
      errLookup (ce.foldl (fun m kv => errSet m kv.1 (errLookup m kv.1 + kv.2)) m) k =
        errLookup m k + errLookup ce k := by
  induction ce with
  | nil => intro m k _; simp [errLookup_nil]
  | cons kv rest ih =>
    intro m k hnd
    rw [List.map_cons, List.nodup_cons] at hnd
    show errLookup (rest.foldl _ (errSet m kv.1 (errLookup m kv.1 + kv.2))) k = _
    rw [ih _ k hnd.2, errLookup_cons]
    by_cases hk : kv.1 = k
    · subst hk
      rw [errLookup_errSet_same, if_pos rfl,
        errLookup_eq_zero_of_not_mem rest kv.1 hnd.1]
      omega
    · rw [errLookup_errSet_other _ _ _ _ (fun hh => hk hh.symm), if_neg hk]

theorem Combine_Min (s c : Stats) (et : Fin 4) :
    (s.Combine c).Min et =
      if s.N et = 0 then c.Min et else min (s.Min et) (c.Min et) := by
  show (if c.Min et < s.Min et ∨ s.N et = 0 then c.Min et else s.Min et) = _
  by_cases hn : s.N et = 0
  · simp [hn]
  · by_cases hlt : c.Min et < s.Min et
    · rw [if_pos (Or.inl hlt), if_neg hn, min_eq_right (le_of_lt hlt)]
    · rw [if_neg (by tauto), if_neg hn, min_eq_left (not_lt.mp hlt)]

theorem Combine_Max (s c : Stats) (et : Fin 4) :
    (s.Combine c).Max et = max (s.Max et) (c.Max et) := by
  show (if s.Max et < c.Max et then c.Max et else s.Max et) = _
  by_cases hlt : s.Max et < c.Max et
  · rw [if_pos hlt, max_eq_right (le_of_lt hlt)]
  · rw [if_neg hlt, max_eq_left (not_lt.mp hlt)]

/-- C4 (counterexample): combining with an all-zero snapshot does *not*
leave the receiver unchanged: for a receiver with five events and
`Min[READ] = 7`, the all-zero operand's `Min[READ] = 0` wins the
`c.Min < s.Min` test and clobbers the receiver's minimum to 0. -/
theorem C4_counterexample :
    (combineCexS.Combine NewStats).Min READ = 0 ∧ combineCexS.Min READ = 7 ∧
    ¬ statsEqv (combineCexS.Combine NewStats) combineCexS := by
  refine ⟨rfl, rfl, fun h => ?_⟩
  exact absurd (congrFun h.2.1 READ) (by decide)

/-- C4 (amended): `Combine` adds bucket counts, `N`, and error tallies
(extensionally, creating missing keys; the operand's keys are distinct as in
any Go map); `Min` becomes `min(s.Min, c.Min)` with `s.N == 0` treated as
"no prior minimum", and `Max` becomes `max(s.Max, c.Max)`.  Combining with
an all-zero snapshot leaves `Buckets`, `N`, `Max` (when nonnegative) and
`Errors` unchanged, **but clobbers `Min` to 0 whenever `s.Min > 0` or
`s.N == 0`** (see the counterexample); `Reset()` followed by `Combine(c)`
yields a snapshot observably equal to `c` whenever `c.Max` is nonnegative
(as in every snapshot built from `Record`).  The operand is a pure value
here, so its non-mutation is by construction. -/
theorem C4_combine :
    (∀ (s c : Stats) (et : Fin 4) (b : Fin 450),
      (s.Combine c).Buckets et b = s.Buckets et b + c.Buckets et b) ∧
    (∀ (s c : Stats) (et : Fin 4), (s.Combine c).N et = s.N et + c.N et) ∧
    (∀ (s c : Stats) (k : ℕ), (c.Errors.map Prod.fst).Nodup →
      errLookup (s.Combine c).Errors k =
        errLookup s.Errors k + errLookup c.Errors k) ∧
    (∀ (s c : Stats) (et : Fin 4),
      (s.Combine c).Min et =
        if s.N et = 0 then c.Min et else min (s.Min et) (c.Min et)) ∧
    (∀ (s c : Stats) (et : Fin 4),
      (s.Combine c).Max et = max (s.Max et) (c.Max et)) ∧
    (∀ (s : Stats) (et : Fin 4),
      (s.Combine NewStats).Buckets = s.Buckets ∧
      (s.Combine NewStats).N et = s.N et ∧
      (s.Combine NewStats).Errors = s.Errors ∧
      (0 ≤ s.Max et → (s.Combine NewStats).Max et = s.Max et) ∧
      (s.N et ≠ 0 → s.Min et ≤ 0 → (s.Combine NewStats).Min et = s.Min et) ∧
      (0 < s.Min et ∨ s.N et = 0 → (s.Combine NewStats).Min et = 0)) ∧
    (∀ (s c : Stats), (∀ et, 0 ≤ c.Max et) → (c.Errors.map Prod.fst).Nodup →
      statsEqv ((s.Reset).Combine c) c) := by
  refine ⟨fun s c et b => rfl, fun s c et => rfl,
    fun s c k hnd => combineErr_lookup c.Errors s.Errors k hnd,
    Combine_Min, Combine_Max, fun s et => ?_, fun s c hc hnd => ?_⟩
  · refine ⟨funext fun et' => funext fun b => by simp [Stats.Combine, NewStats],
      by simp [Stats.Combine, NewStats], rfl, fun hM => ?_, fun hn hm => ?_, fun h0 => ?_⟩
    · rw [Combine_Max]
      exact max_eq_left hM
    · rw [Combine_Min, if_neg hn]
      exact min_eq_left (le_trans hm (by norm_num [NewStats]))
    · rw [Combine_Min]
      rcases h0 with h0 | h0
      · by_cases hn : s.N et = 0
        · simp [hn, NewStats]
        · rw [if_neg hn]
          have : NewStats.Min et = 0 := rfl
          rw [this, min_eq_right (le_of_lt h0)]
      · simp [h0, NewStats]
  · refine ⟨funext fun et => funext fun b => by simp [Stats.Combine, Stats.Reset],
      funext fun et => ?_, funext fun et => ?_,
      funext fun et => by simp [Stats.Combine, Stats.Reset], fun k => ?_⟩
    · rw [Combine_Min]
      simp [Stats.Reset]
    · rw [Combine_Max]
      show max ((0 : ℤ)) (c.Max et) = c.Max et
      exact max_eq_right (hc et)
    · show errLookup ((Stats.Reset s).Combine c).Errors k = errLookup c.Errors k
      have : ((Stats.Reset s).Combine c).Errors =
          c.Errors.foldl (fun m kv => errSet m kv.1 (errLookup m kv.1 + kv.2))
            (s.Errors.map (fun kv => (kv.1, 0))) := rfl
      rw [this, combineErr_lookup c.Errors _ k hnd, errLookup_zeroed]
      omega

/-- C4 witness: `Reset` followed by `Combine` reproduces the concrete
operand snapshot. -/
theorem C4_witness :
    statsEqv ((combineCexS.Reset).Combine combineCexS) combineCexS :=
  C4_combine.2.2.2.2.2.2 combineCexS combineCexS (by decide) (by decide)

/-! ### The per-type histogram invariant (sum of buckets, Min/Max bounds) -/

theorem Record_Buckets_sum (s : Stats) (et et' : Fin 4) (d : ℤ) :
    (∑ b : Fin 450, (s.Record et d).Buckets et' b) =
      (∑ b : Fin 450, s.Buckets et' b) +
        ((if et' = et then 1 else 0) +
         (if et ≠ TOTAL ∧ et' = TOTAL then 1 else 0)) := by
  calc (∑ b : Fin 450, (s.Record et d).Buckets et' b)
      = ∑ b : Fin 450, (s.Buckets et' b +
          ((if et' = et ∧ b = bucketIndexFin (d : ℝ) then 1 else 0) +
           (if et ≠ TOTAL ∧ et' = TOTAL ∧ b = bucketIndexFin (d : ℝ) then 1 else 0))) :=
        Finset.sum_congr rfl (fun b _ => Record_Buckets_formula s et et' d b)
    _ = (∑ b : Fin 450, s.Buckets et' b) +
        ((∑ b : Fin 450, if et' = et ∧ b = bucketIndexFin (d : ℝ) then 1 else 0) +
         (∑ b : Fin 450, if et ≠ TOTAL ∧ et' = TOTAL ∧ b = bucketIndexFin (d : ℝ) then 1 else 0)) := by
        rw [Finset.sum_add_distrib, Finset.sum_add_distrib]
    _ = (∑ b : Fin 450, s.Buckets et' b) +
        ((if et' = et then 1 else 0) +
         (if et ≠ TOTAL ∧ et' = TOTAL then 1 else 0)) := by
        have hA : (∑ b : Fin 450, if et' = et ∧ b = bucketIndexFin (d : ℝ) then 1 else 0) =
            (if et' = et then 1 else 0) := by
          by_cases h1 : et' = et
          · simp [h1, Finset.sum_ite_eq']
          · simp [h1]
        have hB : (∑ b : Fin 450,
              if et ≠ TOTAL ∧ et' = TOTAL ∧ b = bucketIndexFin (d : ℝ) then 1 else 0) =
            (if et ≠ TOTAL ∧ et' = TOTAL then 1 else 0) := by
          by_cases h2 : et ≠ TOTAL ∧ et' = TOTAL
          · simp [h2.1, h2.2, Finset.sum_ite_eq']
          · rcases not_and_or.mp h2 with h3 | h3 <;> simp [h3, h2]
        rw [hA, hB]

theorem Record_sum_eq_N (s : Stats) (et et' : Fin 4) (d : ℤ)
    (hsum : (∑ b : Fin 450, s.Buckets et' b) = s.N et') :
    (∑ b : Fin 450, (s.Record et d).Buckets et' b) = (s.Record et d).N et' :=
  calc (∑ b : Fin 450, (s.Record et d).Buckets et' b)
      = (∑ b : Fin 450, s.Buckets et' b) +
        ((if et' = et then 1 else 0) +
         (if et ≠ TOTAL ∧ et' = TOTAL then 1 else 0)) := Record_Buckets_sum s et et' d
    _ = s.N et' + ((if et' = et then 1 else 0) +
         (if et ≠ TOTAL ∧ et' = TOTAL then 1 else 0)) :=
        congrArg (fun x => x + ((if et' = et then 1 else 0) +
          (if et ≠ TOTAL ∧ et' = TOTAL then 1 else 0))) hsum
    _ = (s.Record et d).N et' := (Record_N_formula s et et' d).symm

theorem c8Inv_Record (s : Stats) (g : Fin 4 → List ℤ) (et : Fin 4) (d : ℤ)
    (h : c8Inv s g) : c8Inv (s.Record et d) (sinceResetStep g (.record et d)) := by
  intro et'
  obtain ⟨hsum, hlen, hzero, hmem⟩ := h et'
  by_cases hc : et' = et ∨ et' = TOTAL
  · have hbump : (s.Record et d).N et' = s.N et' + 1 := by
      rcases hc with hc | hc
      · subst hc; exact Record_N_self s et' d
      · subst hc; exact Record_N_total s et d
    have hming : (s.Record et d).Min et' =
        if d < s.Min et' ∨ s.N et' = 0 then d else s.Min et' := by
      rcases hc with hc | hc
      · subst hc; exact Record_Min_self s et' d
      · subst hc; exact Record_Min_total s et d
    have hmaxg : (s.Record et d).Max et' =
        if s.Max et' < d then d else s.Max et' := by
      rcases hc with hc | hc
      · subst hc; exact Record_Max_self s et' d
      · subst hc; exact Record_Max_total s et d
    have hg : sinceResetStep g (.record et d) et' = g et' ++ [d] := by
      show (if et' = et ∨ et' = TOTAL then g et' ++ [d] else g et') = _
      rw [if_pos hc]
    refine ⟨?_, ?_, ?_, ?_⟩
    · exact Record_sum_eq_N s et et' d hsum
    · rw [hbump, hg, List.length_append, hlen]
      simp
    · rw [hbump]
      omega
    · intro d' hd'
      rw [hg, List.mem_append] at hd'
      rw [hming, hmaxg]
      have hMaxup : s.Max et' ≤ if s.Max et' < d then d else s.Max et' := by
        split <;> omega
      rcases hd' with hd' | hd'
      · have hne : g et' ≠ [] := List.ne_nil_of_mem hd'
        have hN : s.N et' ≠ 0 := by
          rw [hlen]
          intro hh
          exact hne (List.length_eq_zero.mp hh)
        obtain ⟨hlo, hhi⟩ := hmem d' hd'
        constructor
        · split <;> omega
        · omega
      · rw [List.mem_singleton] at hd'
        subst hd'
        constructor
        · split <;> omega
        · split <;> omega
  · push_neg at hc
    have hg : sinceResetStep g (.record et d) et' = g et' := by
      show (if et' = et ∨ et' = TOTAL then g et' ++ [d] else g et') = _
      rw [if_neg (not_or.mpr ⟨hc.1, hc.2⟩)]
    refine ⟨?_, ?_, ?_, ?_⟩
    · exact Record_sum_eq_N s et et' d hsum
    · rw [Record_N_other s et et' d hc.1 hc.2, hg]
      exact hlen
    · rw [Record_N_other s et et' d hc.1 hc.2,
        Record_Min_other s et et' d hc.1 hc.2,
        Record_Max_other s et et' d hc.1 hc.2]
      exact hzero
    · rw [hg, Record_Min_other s et et' d hc.1 hc.2,
        Record_Max_other s et et' d hc.1 hc.2]
      exact hmem

theorem c8Inv_Reset (s : Stats) (g : Fin 4 → List ℤ) :
    c8Inv s.Reset (fun _ => []) := by
  intro et
  refine ⟨by simp [Stats.Reset], by simp [Stats.Reset], fun _ => ⟨rfl, rfl⟩, by simp⟩

theorem c8Inv_runAux (l : List SOp) :
    ∀ (s : Stats) (g : Fin 4 → List ℤ), c8Inv s g →
      c8Inv (l.foldl applyOp s) (l.foldl sinceResetStep g) := by
  induction l with
  | nil => intro s g h; exact h
  | cons op rest ih =>
    intro s g h
    show c8Inv (rest.foldl applyOp (applyOp s op)) (rest.foldl sinceResetStep (sinceResetStep g op))
    refine ih _ _ ?_
    cases op with
    | record et d => exact c8Inv_Record s g et d h
    | reset => exact c8Inv_Reset s g

/-- C8 (counterexample): the claim bounds *every* duration ever recorded for
a type by the current `Min`/`Max`, but a `Reset` discards history: after
`Record(READ,5); Reset(); Record(READ,7)` the duration 5 was recorded for
READ, `N[READ] = 1 > 0`, yet `Min[READ] = 7 > 5`. -/
theorem C8_counterexample :
    (5 : ℤ) ∈ recordedEver [SOp.record READ 5, SOp.reset, SOp.record READ 7] READ ∧
    0 < (runOps [SOp.record READ 5, SOp.reset, SOp.record READ 7]).N READ ∧
    (runOps [SOp.record READ 5, SOp.reset, SOp.record READ 7]).Min READ = 7 ∧
    ¬ ((runOps [SOp.record READ 5, SOp.reset, SOp.record READ 7]).Min READ ≤ 5) := by
  have hrun : runOps [SOp.record READ 5, SOp.reset, SOp.record READ 7] =
      ((NewStats.Record READ 5).Reset).Record READ 7 := rfl
  have hmin : (((NewStats.Record READ 5).Reset).Record READ 7).Min READ = 7 := by
    rw [Record_Min_self]
    simp [Stats.Reset]
  have hn : (((NewStats.Record READ 5).Reset).Record READ 7).N READ = 1 := by
    rw [Record_N_self]
    simp [Stats.Reset]
  refine ⟨by decide, ?_, ?_, ?_⟩
  · rw [hrun, hn]; norm_num
  · rw [hrun, hmin]
  · rw [hrun, hmin]; norm_num

/-- C8 (amended): for every snapshot reachable from a fresh `Stats` by
`Record` calls with positive durations and `Reset` calls, and every event
type: the 450 bucket counts sum to `N`; when `N = 0`, `Min = Max = 0`; and
when `N > 0`, `Min ≤ d ≤ Max` for every duration `d` recorded for that type
**since the last `Reset`** (durations recorded before a `Reset` are no
longer bounded — see the counterexample). -/
theorem C8_invariants (l : List SOp)
    (hl : ∀ (et : Fin 4) (d : ℤ), SOp.record et d ∈ l → 0 < d) :
    ∀ et : Fin 4,
      (∑ b : Fin 450, (runOps l).Buckets et b) = (runOps l).N et ∧
      ((runOps l).N et = 0 → (runOps l).Min et = 0 ∧ (runOps l).Max et = 0) ∧
      (0 < (runOps l).N et → ∀ d ∈ sinceReset l et,
        (runOps l).Min et ≤ d ∧ d ≤ (runOps l).Max et) := by
  have hinv : c8Inv (runOps l) (l.foldl sinceResetStep (fun _ => [])) := by
    refine c8Inv_runAux l NewStats (fun _ => []) ?_
    intro et
    exact ⟨by simp [NewStats], rfl, fun _ => ⟨rfl, rfl⟩, by simp⟩
  intro et
  obtain ⟨hsum, hlen, hzero, hmem⟩ := hinv et
  exact ⟨hsum, hzero, fun _ => hmem⟩

/-- C8 witness: the invariant at the concrete operation sequence
`[Record(READ, 5)]`. -/
theorem C8_witness :
    (∑ b : Fin 450, (runOps [SOp.record READ 5]).Buckets READ b) =
      (runOps [SOp.record READ 5]).N READ := by
  have h := C8_invariants [SOp.record READ 5] ?_ READ
  · exact h.1
  · intro et d hmem
    rcases List.mem_singleton.mp hmem with heq
    injection heq with h1 h2
    subst h2
    norm_num

/-! ### `ParsePercentiles` -/

theorem splitOnComma_no_comma (tok : List Char) (h : ',' ∉ tok) :
    splitOnComma tok = [tok] := by
  induction tok with
  | nil => rfl
  | cons c rest ih =>
    have hc : ¬ c = ',' := fun hh => h (by simp [hh])
    have hr : ',' ∉ rest := fun hh => h (by simp [hh])
    simp only [splitOnComma, if_neg hc, ih hr]

theorem parseTokens_cons (raw : List Char) (rest : List (List Char))
    (s : List (List Char)) (p : List ℚ) :
    parseTokens (raw :: rest) s p =
      match parseGoFloat (trimLeftPp (trimSpace raw)) with
      | none => .error .invalidPercentile
      | some f =>
        if f < 0 ∨ 100 < f then .error .outOfRange
        else parseTokens rest (s ++ ['P' :: trimLeftPp (trimSpace raw)]) (p ++ [f]) := rfl

theorem parseGoFloat_nil : parseGoFloat [] = none := rfl

/-- C6 (counterexample): the claim trims "an optional leading P/p" from each
token, but the source strips *every* leading `P`/`p`
(`strings.TrimLeft(..., "Pp")`): the token `PP95` is not parseable as a
decimal number after removing one optional `P` (namely `P95`), yet
`ParsePercentiles` succeeds on it (producing name `P95`, fraction 95)
instead of returning an InvalidPercentile error. -/
theorem C6_counterexample :
    parseGoFloat ['P', '9', '5'] = none ∧
    ParsePercentiles ['P', 'P', '9', '5'] = .ok ([['P', '9', '5']], [95]) :=
  ⟨rfl, rfl⟩

/-- C6 (amended): `ParsePercentiles("95,99,99.9")` returns names
`["P95","P99","P99.9"]` and fractions `[95, 99, 99.9]`; blank or
whitespace-only input returns the fixed default list with no error; for
tokens over the plain-decimal alphabet, a token not parseable as a decimal
number **after trimming surrounding whitespace and all leading `P`/`p`
characters** yields an InvalidPercentile error (e.g. `"abc"`), and a
parseable value outside `[0,100]` yields an OutOfRange error
(e.g. `"105"`). -/
theorem C6_parse_percentiles :
    (ParsePercentiles ['9', '5', ',', '9', '9', ',', '9', '9', '.', '9'] =
      .ok ([['P', '9', '5'], ['P', '9', '9'], ['P', '9', '9', '.', '9']],
           [95, 99, 999 / 10])) ∧
    (∀ s : List Char, trimSpace s = [] →
      ParsePercentiles s = .ok (DefaultPercentileNames, DefaultPercentiles)) ∧
    (∀ tok : List Char, ',' ∉ tok → tok.all goFloatChar = true →
      trimSpace tok ≠ [] →
      parseGoFloat (trimLeftPp (trimSpace tok)) = none →
      ParsePercentiles tok = .error .invalidPercentile) ∧
    (∀ (tok : List Char) (f : ℚ), ',' ∉ tok → tok.all goFloatChar = true →
      parseGoFloat (trimLeftPp (trimSpace tok)) = some f → (f < 0 ∨ 100 < f) →
      ParsePercentiles tok = .error .outOfRange) ∧
    (ParsePercentiles ['a', 'b', 'c'] = .error .invalidPercentile) ∧
    (ParsePercentiles ['1', '0', '5'] = .error .outOfRange) := by
  refine ⟨by with_unfolding_all rfl, ?_, ?_, ?_, rfl, rfl⟩
  · intro s hs
    unfold ParsePercentiles
    rw [if_pos hs]
  · intro tok hcomma _ hne hp
    unfold ParsePercentiles
    rw [if_neg hne, splitOnComma_no_comma tok hcomma, if_neg (by simp),
      parseTokens_cons, hp]
  · intro tok f hcomma _ hpf hrange
    have hne : trimSpace tok ≠ [] := by
      intro hh
      rw [hh] at hpf
      exact absurd (parseGoFloat_nil ▸ hpf) (by simp)
    unfold ParsePercentiles
    rw [if_neg hne, splitOnComma_no_comma tok hcomma, if_neg (by simp),
      parseTokens_cons, hpf]
    show (if f < 0 ∨ 100 < f then Except.error PercErr.outOfRange else _) = _
    rw [if_pos hrange]

/-- C6 witness: whitespace-only input yields the default list. -/
theorem C6_witness :
    ParsePercentiles [' '] = .ok (DefaultPercentileNames, DefaultPercentiles) :=
  C6_parse_percentiles.2.1 [' '] rfl

/-! ### `Percentiles`: the scan loop matches the spec's walk -/

theorem percSpecWalk_nil (bkts : ℕ → ℕ) (N fuel i n : ℕ) :
    percSpecWalk bkts N fuel i n [] = [] := by
  cases fuel <;> rfl

theorem percSpecWalk_length (bkts : ℕ → ℕ) (N : ℕ) :
    ∀ (fuel i n : ℕ) (ts : List ℚ),
      (percSpecWalk bkts N fuel i n ts).length = ts.length := by
  intro fuel
  induction fuel with
  | zero =>
    intro i n ts
    cases ts with
    | nil => rfl
    | cons pj rest => simp [percSpecWalk]
  | succ fuel ih =>
    intro i n ts
    cases ts with
    | nil => rfl
    | cons pj rest =>
      simp only [percSpecWalk]
      split
      · simp [ih]
      · rw [ih]

theorem percGo_eq_walk (bkts : ℕ → ℕ) (N : ℕ) (p : List ℚ) :
    ∀ (fuel i n j : ℕ) (q : List ℕ),
      q.length = p.length → j < p.length → (∀ x ∈ q.drop j, x = 0) →
      percGo bkts N p fuel i n j q =
        q.take j ++ percSpecWalk bkts N fuel i n (p.drop j) := by
  intro fuel
  induction fuel with
  | zero =>
    intro i n j q hlen hj hz
    show q = q.take j ++ percSpecWalk bkts N 0 i n (p.drop j)
    have hw : percSpecWalk bkts N 0 i n (p.drop j) =
        List.replicate (p.drop j).length 0 := by
      cases hdj : p.drop j with
      | nil =>
        have := congrArg List.length hdj
        simp [List.length_drop] at this
        omega
      | cons a l => simp [percSpecWalk]
    rw [hw]
    have h1 : q.drop j = List.replicate (q.drop j).length 0 :=
      List.eq_replicate_length.mpr hz
    have h2 : (q.drop j).length = (p.drop j).length := by
      simp [List.length_drop, hlen]
    calc q = q.take j ++ q.drop j := (List.take_append_drop j q).symm
      _ = q.take j ++ List.replicate (p.drop j).length 0 := by
          rw [← h2]
          exact congrArg (q.take j ++ ·) h1
  | succ fuel ih =>
    intro i n j q hlen hj hz
    have hdj : p.drop j = p.getD j 0 :: p.drop (j + 1) := by
      rw [List.drop_eq_getElem_cons hj, ← List.getD_eq_getElem p 0 hj]
    rw [hdj]
    simp only [percGo, percSpecWalk]
    by_cases hcond : p.getD j 0 ≤ ((((n + bkts i : ℕ) : ℚ)) / (N : ℚ) * 100)
    · rw [if_pos hcond, if_pos hcond]
      by_cases hlast : j = q.length - 1
      · rw [if_pos hlast]
        have hqj : j < q.length := by omega
        have hj1 : p.length ≤ j + 1 := by
          rw [hlen] at hlast
          omega
        have hdrop : p.drop (j + 1) = [] := by
          have hlp : (p.drop (j + 1)).length = 0 := by
            simp [List.length_drop]
            omega
          exact List.length_eq_zero.mp hlp
        rw [hdrop, percSpecWalk_nil,
          List.set_eq_take_cons_drop _ hqj]
        have hqdrop : q.drop (j + 1) = [] := by
          have hlq : (q.drop (j + 1)).length = 0 := by
            simp [List.length_drop]
            omega
          exact List.length_eq_zero.mp hlq
        rw [hqdrop]
      · rw [if_neg hlast]
        have hqj : j < q.length := by omega
        have hj1 : j + 1 < p.length := by
          rw [hlen] at hlast
          omega
        have hzero1 : ∀ x ∈ (q.set j
            (estValue i (p.getD j 0) (((n + bkts i : ℕ) : ℚ) / (N : ℚ) * 100))).drop (j + 1),
            x = 0 := by
          intro x hx
          rw [List.drop_set_of_lt _ _ (by omega)] at hx
          have hsub : q.drop (j + 1) = (q.drop j).drop 1 := by
            rw [List.drop_drop]
          rw [hsub] at hx
          exact hz x (List.mem_of_mem_drop hx)
        rw [ih (i + 1) (n + bkts i) (j + 1) _ (by simp [hlen]) hj1 hzero1]
        have htake : (q.set j
            (estValue i (p.getD j 0) (((n + bkts i : ℕ) : ℚ) / (N : ℚ) * 100))).take (j + 1) =
            q.take j ++ [estValue i (p.getD j 0) (((n + bkts i : ℕ) : ℚ) / (N : ℚ) * 100)] := by
          rw [List.set_eq_take_cons_drop _ hqj, List.take_append_eq_append_take]
          have hlt : (q.take j).length = j := by
            rw [List.length_take]
            omega
          rw [hlt, List.take_take]
          have hmin : min (j + 1) j = j := by omega
          rw [hmin]
          have : j + 1 - j = 1 := by omega
          rw [this]
          rfl
        rw [htake, List.append_assoc]
        rfl
    · rw [if_neg hcond, if_neg hcond]
      have := ih (i + 1) (n + bkts i) j q hlen hj hz
      rw [hdj] at this
      exact this

theorem Percentiles_eq_spec (s : Stats) (et : Fin 4) (p : List ℚ) :
    s.Percentiles et p = percentilesSpec s et p := by
  unfold Stats.Percentiles percentilesSpec
  by_cases hp : p = []
  · simp [hp]
  · rw [if_neg (fun h => hp (List.length_eq_zero.mp h)), if_neg hp]
    have h0 : 0 < p.length := List.length_pos.mpr hp
    rw [percGo_eq_walk (s.bfun et) (s.N et) p 450 0 0 0 (List.replicate p.length 0)
      (by simp) h0 ?_]
    · simp
    · intro x hx
      rw [List.drop_zero] at hx
      exact List.eq_of_mem_replicate hx

theorem Percentiles_length (s : Stats) (et : Fin 4) (p : List ℚ) :
    (s.Percentiles et p).length = p.length := by
  rw [Percentiles_eq_spec]
  unfold percentilesSpec
  by_cases hp : p = []
  · simp [hp]
  · rw [if_neg hp, percSpecWalk_length]

/-- C2: `Percentiles` computes exactly the walk the spec describes: scan
buckets `0..449` in order maintaining `n` and `f = n/N·100`; once
`f ≥ p[j]`, the estimate is the bucket's (truncated) upper boundary
`base·factor^i`, refined to the midpoint of bucket `i`'s and bucket
`i-1`'s upper boundaries when the integer parts of `p[j]` and `f` differ
and `i > 0`, and `base·factor^0` when `i == 0` (this is `estValue`, shared
by the loop and the walk); the output is positionally parallel to the
input, and the empty request returns `[]` immediately. -/
theorem C2_percentiles_walk :
    (∀ (s : Stats) (et : Fin 4) (p : List ℚ),
      s.Percentiles et p = percentilesSpec s et p) ∧
    (∀ (s : Stats) (et : Fin 4) (p : List ℚ),
      (s.Percentiles et p).length = p.length) ∧
    (∀ (s : Stats) (et : Fin 4), s.Percentiles et [] = []) :=
  ⟨Percentiles_eq_spec, Percentiles_length, fun _ _ => rfl⟩

/-! ### Monotonicity of the percentile estimates -/

theorem factorQ_ge_one : (1 : ℚ) ≤ factorQ := by norm_num [factorQ]

theorem hiVal_mono {i j : ℕ} (h : i ≤ j) : hiVal i ≤ hiVal j := by
  unfold hiVal
  refine Nat.floor_mono ?_
  have := pow_le_pow_right factorQ_ge_one h
  nlinarith

theorem estValue_le (i : ℕ) (pj f : ℚ) : estValue i pj f ≤ hiVal i := by
  have hlo : hiVal (i - 1) ≤ hiVal i := hiVal_mono (by omega)
  unfold estValue
  dsimp only
  split
  · omega
  · split
    · rename_i h0
      subst h0
      exact le_refl _
    · exact le_refl _

theorem estValue_ge (i : ℕ) (pj f : ℚ) : hiVal (i - 1) ≤ estValue i pj f := by
  have hlo : hiVal (i - 1) ≤ hiVal i := hiVal_mono (by omega)
  unfold estValue
  dsimp only
  split
  · omega
  · split
    · rename_i h0
      subst h0
      exact le_refl _
    · exact hlo

theorem pairwise_zero_replicate (n : ℕ) :
    List.Pairwise (fun a b : ℕ => a ≠ 0 → b ≠ 0 → a ≤ b) (List.replicate n 0) := by
  induction n with
  | zero => simp
  | succ n ih =>
    rw [List.replicate_succ]
    refine List.Pairwise.cons ?_ ih
    intro x _ h0 _
    exact absurd rfl h0

theorem percSpecWalk_lower (bkts : ℕ → ℕ) (N : ℕ) :
    ∀ (fuel i n : ℕ) (ts : List ℚ) (x : ℕ),
      x ∈ percSpecWalk bkts N fuel i n ts → x = 0 ∨ hiVal (i - 1) ≤ x := by
  intro fuel
  induction fuel with
  | zero =>
    intro i n ts x hx
    cases ts with
    | nil => simp [percSpecWalk] at hx
    | cons pj rest =>
      simp only [percSpecWalk] at hx
      exact Or.inl (List.eq_of_mem_replicate hx)
  | succ fuel ih =>
    intro i n ts x hx
    cases ts with
    | nil => simp [percSpecWalk] at hx
    | cons pj rest =>
      simp only [percSpecWalk] at hx
      split at hx
      · rcases List.mem_cons.mp hx with hx | hx
        · subst hx
          exact Or.inr (estValue_ge i pj _)
        · rcases ih (i + 1) (n + bkts i) rest x hx with h | h
          · exact Or.inl h
          · refine Or.inr (le_trans (hiVal_mono ?_) h)
            omega
      · rcases ih (i + 1) (n + bkts i) (pj :: rest) x hx with h | h
        · exact Or.inl h
        · refine Or.inr (le_trans (hiVal_mono ?_) h)
          omega

theorem percSpecWalk_pairwise (bkts : ℕ → ℕ) (N : ℕ) :
    ∀ (fuel i n : ℕ) (ts : List ℚ),
      List.Pairwise (fun a b => a ≠ 0 → b ≠ 0 → a ≤ b)
        (percSpecWalk bkts N fuel i n ts) := by
  intro fuel
  induction fuel with
  | zero =>
    intro i n ts
    cases ts with
    | nil => simp [percSpecWalk]
    | cons pj rest =>
      simp only [percSpecWalk]
      exact pairwise_zero_replicate _
  | succ fuel ih =>
    intro i n ts
    cases ts with
    | nil => simp [percSpecWalk]
    | cons pj rest =>
      simp only [percSpecWalk]
      split
      · refine List.Pairwise.cons ?_ (ih (i + 1) (n + bkts i) rest)
        intro x hx _ hxne
        rcases percSpecWalk_lower bkts N fuel (i + 1) (n + bkts i) rest x hx with h | h
        · exact absurd h hxne
        · calc estValue i pj _ ≤ hiVal i := estValue_le i pj _
            _ ≤ x := by simpa using h
      · exact ih (i + 1) (n + bkts i) (pj :: rest)

/-- C9 (counterexample): the returned values need not follow the order of
the fraction values.  (1) For the unsorted request `[100, 50]` on a
snapshot with one READ event in bucket 30 and one in bucket 31, the target
50 is satisfied one bucket *after* the target 100, giving values
`[41, 42]`: fraction 50 ≤ fraction 100 but value 42 > value 41.  (2) For
the sorted request `[50, 101]` on a single-event snapshot the second
target is never satisfied and is left at 0: fraction 50 ≤ fraction 101 but
value 12 > value 0. -/
theorem C9_counterexample :
    (percCexS.Percentiles READ [100, 50] = [41, 42] ∧ (50 : ℚ) ≤ 100 ∧
      ¬ ((42 : ℕ) ≤ 41)) ∧
    (percCexS2.Percentiles READ [50, 101] = [12, 0] ∧ (50 : ℚ) ≤ 101 ∧
      ¬ ((12 : ℕ) ≤ 0)) := by
  refine ⟨⟨?_, by norm_num, by omega⟩, ⟨?_, by norm_num, by omega⟩⟩
  · with_unfolding_all rfl
  · with_unfolding_all rfl

/-- C9 (amended): the values returned by `Percentiles` are non-decreasing
*positionally* among satisfied targets: whenever `i ≤ j` and the values at
positions `i` and `j` are both nonzero (both targets were satisfied during
the scan), `value[i] ≤ value[j]`.  For a sorted fraction list this is the
claim's monotonicity restricted to satisfied targets; an unsatisfied
target yields 0, and comparing by fraction order rather than position
fails for unsorted lists (see the counterexample). -/
theorem C9_percentile_monotonicity (s : Stats) (et : Fin 4) (p : List ℚ)
    (i j : ℕ) (hij : i ≤ j)
    (hi : (s.Percentiles et p).getD i 0 ≠ 0)
    (hj : (s.Percentiles et p).getD j 0 ≠ 0) :
    (s.Percentiles et p).getD i 0 ≤ (s.Percentiles et p).getD j 0 := by
  rcases eq_or_lt_of_le hij with heq | hlt
  · subst heq
    exact le_refl _
  · by_cases hjlen : j < (s.Percentiles et p).length
    · have hilen : i < (s.Percentiles et p).length := lt_trans hlt hjlen
      rw [List.getD_eq_getElem _ 0 hilen] at hi ⊢
      rw [List.getD_eq_getElem _ 0 hjlen] at hj ⊢
      have hpair : List.Pairwise (fun a b => a ≠ 0 → b ≠ 0 → a ≤ b)
          (s.Percentiles et p) := by
        rw [Percentiles_eq_spec]
        unfold percentilesSpec
        by_cases hp : p = []
        · simp [hp]
        · rw [if_neg hp]
          exact percSpecWalk_pairwise _ _ _ _ _ _
      have hR := List.pairwise_iff_get.mp hpair ⟨i, hilen⟩ ⟨j, hjlen⟩ hlt
      simp only [List.get_eq_getElem] at hR
      exact hR hi hj
    · rw [List.getD_eq_default _ _ (not_lt.mp hjlen)] at hj
      exact absurd rfl hj

/-- C9 witness: the amended monotonicity at the concrete snapshot with one
READ event in bucket 0 and one in bucket 1, for the sorted request
`[50, 100]` (values `[10, 10]`). -/
theorem C9_witness :
    (percWitS.Percentiles READ [50, 100]).getD 0 0 ≤
      (percWitS.Percentiles READ [50, 100]).getD 1 0 := by
  have hout : percWitS.Percentiles READ [50, 100] = [10, 10] := by
    with_unfolding_all rfl
  exact C9_percentile_monotonicity percWitS READ [50, 100] 0 1 (by omega)
    (by rw [hout]; decide) (by rw [hout]; decide)
